import Mathlib

/-!
Verification development for the chessProject attack-map pipeline
(`src/utility_functions.py`).

The Python module is shallowly embedded: boards are explicit piece lists,
numpy 8x8 `int8` grids are lists of lists of integers with explicit wrap-around
on increment, fallible operations return `Except`, and the external
python-chess collaborator (piece occupancy, attacked-square queries, move
application) is modelled explicitly where the claims need it.
-/

namespace ChessProj

/-- Piece colors, modelling python-chess `chess.WHITE` / `chess.BLACK`. -/
inductive PColor
  | white
  | black
deriving DecidableEq

/-- Piece kinds, modelling python-chess piece types. -/
inductive PKind
  | pawn
  | knight
  | bishop
  | rook
  | queen
  | king
deriving DecidableEq

/-- A chess piece: color plus kind (python-chess `chess.Piece`). -/
structure Piece where
  color : PColor
  kind : PKind
deriving DecidableEq

/-- A board position, modelling `chess.Board`: piece placement over squares
0..63 (square = rank*8 + file, as in python-chess) plus the side to move. -/
structure Board where
  squares : List (Option Piece)
  turn : PColor
deriving DecidableEq

/-- Models `board.piece_at(square)`. -/
def Board.pieceAt (b : Board) (sq : Nat) : Option Piece :=
  b.squares.getD sq none

/-- Models `chess.SQUARES`, the list of the 64 square numbers. -/
def chessSQUARES : List Nat := List.range 64

/-- Embeds `square_numb_to_2d_coords` (src/utility_functions.py:32-41):
`return [square_numb // 8, square_numb % 8]`.  Python `//` and `%` are floor
division and its remainder, which coincide with Lean's Euclidean `/` and `%`
on `Int` for the positive divisor 8. -/
def square_numb_to_2d_coords (square_numb : Int) : List Int :=
  [square_numb / 8, square_numb % 8]

/-- Embeds `coords_to_square_numb` (src/utility_functions.py:97-104):
`return x * 8 + y`. -/
def coords_to_square_numb (x : Int) (y : Int) : Int :=
  x * 8 + y

/-- C5: the square-coordinate mapping is a bijection on the 64-square domain:
for every `n` in `[0,64)`, recomposing the 2D decomposition of `n` with
`coords_to_square_numb` gives back `n`, and for every `row, col` in `[0,8)`,
`square_numb_to_2d_coords (coords_to_square_numb row col) = [row, col]`. -/
theorem C5_coords_bijection (n row col : Int)
    (hn0 : 0 ≤ n) (hn : n < 64) (hr0 : 0 ≤ row) (hr : row < 8)
    (hc0 : 0 ≤ col) (hc : col < 8) :
    (∀ r c : Int, square_numb_to_2d_coords n = [r, c] →
      coords_to_square_numb r c = n) ∧
    square_numb_to_2d_coords (coords_to_square_numb row col) = [row, col] := by
  constructor
  · intro r c h
    simp only [square_numb_to_2d_coords, List.cons.injEq, and_true] at h
    obtain ⟨hr', hc'⟩ := h
    subst hr' hc'
    simp only [coords_to_square_numb]
    omega
  · simp only [square_numb_to_2d_coords, coords_to_square_numb,
      List.cons.injEq, and_true]
    omega

/-- Witness for C5 at `n = 37`, `(row, col) = (3, 5)`. -/
theorem C5_coords_bijection_witness :
    ((0 ≤ (37:Int)) ∧ (37:Int) < 64 ∧ (0 ≤ (3:Int)) ∧ (3:Int) < 8 ∧
      (0 ≤ (5:Int)) ∧ (5:Int) < 8) ∧
    ((∀ r c : Int, square_numb_to_2d_coords 37 = [r, c] →
        coords_to_square_numb r c = 37) ∧
      square_numb_to_2d_coords (coords_to_square_numb 3 5) = [3, 5]) :=
  ⟨by decide,
    C5_coords_bijection 37 3 5 (by decide) (by decide) (by decide) (by decide)
      (by decide) (by decide)⟩

/-- Rank (row) of a square number: `square = rank*8 + file` in python-chess. -/
def rkOf (sq : Nat) : Int := (sq : Int) / 8

/-- File (column) of a square number. -/
def flOf (sq : Nat) : Int := (sq : Int) % 8

/-- Square number from rank/file coordinates. -/
def sqOf (r f : Int) : Nat := (r * 8 + f).toNat

/-- Are all squares strictly between `s` and `t` (assumed collinear on a rank,
file or diagonal) empty?  Models blocker truncation of sliding-piece rays in
the external rules engine. -/
def betweenEmpty (b : Board) (s t : Nat) : Bool :=
  let dr := rkOf t - rkOf s
  let df := flOf t - flOf s
  let n := max dr.natAbs df.natAbs
  (List.range (n - 1)).all fun m =>
    (b.pieceAt (sqOf (rkOf s + ((m : Int) + 1) * dr.sign)
      (flOf s + ((m : Int) + 1) * df.sign))).isNone

/-- Models `board.attacks(s)` membership of square `t`: does the piece sitting
on `s` attack `t`?  Standard chess attack semantics as implemented by the
external rules engine (python-chess): pawns attack diagonally forward, sliding
pieces are blocked by the first occupied square (which is itself attacked,
regardless of its color), and an empty source square attacks nothing. -/
def attacksFromTo (b : Board) (s t : Nat) : Bool :=
  match b.pieceAt s with
  | none => false
  | some p =>
    let dr := rkOf t - rkOf s
    let df := flOf t - flOf s
    if s = t then false
    else
      match p.kind with
      | .pawn =>
        (if p.color = PColor.white then dr == 1 else dr == -1) && df.natAbs == 1
      | .knight =>
        (dr.natAbs == 1 && df.natAbs == 2) || (dr.natAbs == 2 && df.natAbs == 1)
      | .king => decide (dr.natAbs ≤ 1) && decide (df.natAbs ≤ 1)
      | .rook => (dr == 0 || df == 0) && betweenEmpty b s t
      | .bishop => dr.natAbs == df.natAbs && betweenEmpty b s t
      | .queen =>
        (dr == 0 || df == 0 || dr.natAbs == df.natAbs) && betweenEmpty b s t

/-- Models Python `str.lower` (ASCII, which is all the selectors use). -/
def pyLower (s : String) : String := String.mk (s.data.map Char.toLower)

/-- Python exception values that the embedded functions can produce. -/
inductive PyErr
  | valueError (msg : String)
  | typeError (msg : String)
deriving DecidableEq

/-- The color-selector parse at the top of `get_occupied_squares_by_color`
(src/utility_functions.py:17-22): case-insensitive "white"/"black". -/
def parseColor (color : String) : Option PColor :=
  if pyLower color = "white" then some PColor.white
  else if pyLower color = "black" then some PColor.black
  else none

/-- The occupied-square loop of `get_occupied_squares_by_color`
(src/utility_functions.py:24-29): every square holding a piece of color `c`. -/
def occupiedFilter (board : Board) (c : PColor) : List Nat :=
  chessSQUARES.filter fun square =>
    match board.pieceAt square with
    | some p => p.color = c
    | none => false

/-- Embeds `get_occupied_squares_by_color` (src/utility_functions.py:9-29).
On an invalid selector the Python code RETURNS (does not raise) a `ValueError`
object; the sum type records that the error object is an ordinary value. -/
def get_occupied_squares_by_color (board : Board) (color : String) :
    PyErr ⊕ List Nat :=
  match parseColor color with
  | some c => Sum.inr (occupiedFilter board c)
  | none => Sum.inl (PyErr.valueError
      "parameters of the functions should be white or black (case insensitive)")

/-- An 8x8 numpy `int8` matrix, as a list of row lists. -/
abbrev GridI := List (List Int)

/-- Models `np.zeros(shape=(8, 8), dtype=numpy.int8)`. -/
def npZeros8x8 : GridI := List.replicate 8 (List.replicate 8 0)

/-- Reading `M[x][y]`. -/
def npGet (M : GridI) (x y : Nat) : Int := (M.getD x []).getD y 0

/-- numpy `int8` wrap-around: arithmetic is two's complement modulo 2^8. -/
def wrap8 (z : Int) : Int := (z + 128) % 256 - 128

/-- Models `attack_count[x][y] += 1` on the `int8` array. -/
def npIncr (M : GridI) (x y : Nat) : GridI :=
  M.set x ((M.getD x []).set y (wrap8 (npGet M x y + 1)))

/-- The increment step of `get_attack_count_by_color`
(src/utility_functions.py:63-66): `[x, y] = square_numb_to_2d_coords(square_);
attack_count[x][y] += 1`. -/
def incrAtSquare (M : GridI) (square_ : Nat) : GridI :=
  match square_numb_to_2d_coords (square_ : Int) with
  | [x, y] => npIncr M x.toNat y.toNat
  | _ => M

/-- The inner loop of `get_attack_count_by_color` (src/utility_functions.py:63-66):
for each square number in `ts`, if the piece on `square` attacks it, increment
the corresponding grid cell. -/
def innerFold (chess_board : Board) (square : Nat) (ts : List Nat) (acc : GridI) :
    GridI :=
  ts.foldl (fun acc2 square_ =>
    if attacksFromTo chess_board square square_ then incrAtSquare acc2 square_
    else acc2) acc

/-- The attack-count grid built by the loops of `get_attack_count_by_color`
(src/utility_functions.py:52-66), starting from the 8x8 int8 zero array. -/
def attackGrid (chess_board : Board) (occupied_squares : List Nat) : GridI :=
  occupied_squares.foldl
    (fun acc square => innerFold chess_board square chessSQUARES acc) npZeros8x8

/-- Embeds `get_attack_count_by_color` (src/utility_functions.py:44-68).
When `get_occupied_squares_by_color` hands back the `ValueError` object, the
`for square in occupied_squares` loop raises a `TypeError` (a `ValueError`
object is not iterable), which propagates to the caller. -/
def get_attack_count_by_color (chess_board : Board) (color : String) :
    Except PyErr GridI :=
  match get_occupied_squares_by_color chess_board color with
  | Sum.inl _ => Except.error (PyErr.typeError "ValueError object is not iterable")
  | Sum.inr occupied_squares =>
    Except.ok (attackGrid chess_board occupied_squares)

/-- The back rank of one color in the standard initial position. -/
def backRank (c : PColor) : List (Option Piece) :=
  [some ⟨c, .rook⟩, some ⟨c, .knight⟩, some ⟨c, .bishop⟩, some ⟨c, .queen⟩,
   some ⟨c, .king⟩, some ⟨c, .bishop⟩, some ⟨c, .knight⟩, some ⟨c, .rook⟩]

/-- A rank of pawns of one color. -/
def pawnRank (c : PColor) : List (Option Piece) :=
  List.replicate 8 (some ⟨c, .pawn⟩)

/-- The standard initial chess position (white to move). -/
def startBoard : Board :=
  { squares := backRank .white ++ pawnRank .white ++ List.replicate 32 none ++
      pawnRank .black ++ backRank .black,
    turn := .white }

/-! Characterization of the attack-count grid: each cell of the int8 array
ends up holding exactly the number of occupied squares attacking it. -/

/-- The int8 array is a well-formed 8x8 matrix. -/
def GridShape (M : GridI) : Prop :=
  M.length = 8 ∧ ∀ r ∈ M, r.length = 8

theorem gridShape_zeros : GridShape npZeros8x8 := by
  constructor
  · simp [npZeros8x8]
  · intro r hr
    simp only [npZeros8x8] at hr
    rw [List.eq_of_mem_replicate hr]
    simp

theorem row_of_shape (M : GridI) (a : Nat) (hM : GridShape M) (ha : a < 8) :
    M.getD a [] ∈ M ∧ (M.getD a []).length = 8 := by
  obtain ⟨h8, hrow⟩ := hM
  have hlt : a < M.length := by omega
  have hsome : M[a]? = some M[a] := List.getElem?_eq_getElem hlt
  rw [List.getD_eq_getElem?_getD, hsome, Option.getD_some]
  exact ⟨List.getElem_mem hlt, hrow _ (List.getElem_mem hlt)⟩

theorem gridShape_npIncr (M : GridI) (a b : Nat) (hM : GridShape M)
    (ha : a < 8) : GridShape (npIncr M a b) := by
  obtain ⟨hmem, hlen⟩ := row_of_shape M a hM ha
  obtain ⟨h8, hrow⟩ := hM
  constructor
  · simp [npIncr, h8]
  · intro r hr
    rcases List.mem_or_eq_of_mem_set hr with h | h
    · exact hrow r h
    · subst h
      rw [List.length_set]
      exact hlen

theorem npGet_npIncr (M : GridI) (a b x y : Nat) (hM : GridShape M)
    (ha : a < 8) (hb : b < 8) (hx : x < 8) (hy : y < 8) :
    npGet (npIncr M a b) x y =
      if a = x ∧ b = y then wrap8 (npGet M x y + 1) else npGet M x y := by
  obtain ⟨hmem, hlen⟩ := row_of_shape M a hM ha
  obtain ⟨h8, hrow⟩ := hM
  by_cases hax : a = x
  · subst hax
    by_cases hby : b = y
    · subst hby
      rw [if_pos ⟨rfl, rfl⟩]
      simp only [npGet, npIncr, List.getD_eq_getElem?_getD]
      rw [List.getElem?_set_self (by omega), Option.getD_some,
        List.getElem?_set_self (by rw [← List.getD_eq_getElem?_getD]; omega),
        Option.getD_some]
    · rw [if_neg (fun h => hby h.2)]
      simp only [npGet, npIncr, List.getD_eq_getElem?_getD]
      rw [List.getElem?_set_self (by omega), Option.getD_some,
        List.getElem?_set_ne (fun h => hby h)]
  · rw [if_neg (fun h => hax h.1)]
    simp only [npGet, npIncr, List.getD_eq_getElem?_getD]
    rw [List.getElem?_set_ne (fun h => hax h)]

theorem incrAtSquare_eq (M : GridI) (t : Nat) :
    incrAtSquare M t = npIncr M (t / 8) (t % 8) := by
  have h1 : ((t : Int) / 8).toNat = t / 8 := by omega
  have h2 : ((t : Int) % 8).toNat = t % 8 := by omega
  simp only [incrAtSquare, square_numb_to_2d_coords, h1, h2]

/-- Applying the wrapped int8 increment `n` times to a cell value. -/
def countWrapIter : Nat → Int → Int
  | 0, v => v
  | n + 1, v => countWrapIter n (wrap8 (v + 1))

theorem countWrapIter_succ (n : Nat) (v : Int) :
    countWrapIter (n + 1) v = countWrapIter n (wrap8 (v + 1)) := rfl

theorem countWrapIter_comp (m n : Nat) (v : Int) :
    countWrapIter n (countWrapIter m v) = countWrapIter (m + n) v := by
  induction m generalizing v with
  | zero => simp [countWrapIter]
  | succ m ih => simpa [countWrapIter, Nat.succ_add] using ih (wrap8 (v + 1))

/-- As long as the cell value stays at most 127, the int8 increment never
wraps: iterating it `n` times just adds `n`. -/
theorem countWrapIter_no_wrap (n : Nat) (v : Int) (h0 : 0 ≤ v)
    (h : v + n ≤ 127) : countWrapIter n v = v + n := by
  induction n generalizing v with
  | zero => simp [countWrapIter]
  | succ n ih =>
    have hw : wrap8 (v + 1) = v + 1 := by
      simp only [wrap8]
      omega
    rw [countWrapIter, hw, ih (v + 1) (by omega) (by omega)]
    omega

theorem gridShape_innerFold (b : Board) (s : Nat) (ts : List Nat) (M : GridI)
    (hts : ∀ t ∈ ts, t < 64) (hM : GridShape M) :
    GridShape (innerFold b s ts M) := by
  induction ts generalizing M with
  | nil => exact hM
  | cons t ts ih =>
    have ht64 : t < 64 := hts t (List.mem_cons_self t ts)
    have hts' : ∀ u ∈ ts, u < 64 := fun u hu => hts u (List.mem_cons_of_mem t hu)
    have hstep : innerFold b s (t :: ts) M =
        innerFold b s ts (if attacksFromTo b s t then incrAtSquare M t else M) :=
      rfl
    rw [hstep]
    by_cases hatt : attacksFromTo b s t
    · rw [if_pos hatt]
      refine ih _ hts' ?_
      rw [incrAtSquare_eq]
      exact gridShape_npIncr M _ _ hM (by omega)
    · rw [if_neg hatt]
      exact ih _ hts' hM

theorem npGet_innerFold (b : Board) (s : Nat) (ts : List Nat) (M : GridI)
    (x y : Nat) (hts : ∀ t ∈ ts, t < 64) (hM : GridShape M)
    (hx : x < 8) (hy : y < 8) :
    npGet (innerFold b s ts M) x y =
      countWrapIter
        (ts.countP (fun t =>
          attacksFromTo b s t && (t / 8 == x) && (t % 8 == y)))
        (npGet M x y) := by
  induction ts generalizing M with
  | nil => simp [innerFold, countWrapIter]
  | cons t ts ih =>
    have ht64 : t < 64 := hts t (List.mem_cons_self t ts)
    have hts' : ∀ u ∈ ts, u < 64 := fun u hu => hts u (List.mem_cons_of_mem t hu)
    have hstep : innerFold b s (t :: ts) M =
        innerFold b s ts (if attacksFromTo b s t then incrAtSquare M t else M) :=
      rfl
    rw [hstep, List.countP_cons]
    by_cases hatt : attacksFromTo b s t
    · rw [if_pos hatt]
      have hM' : GridShape (incrAtSquare M t) := by
        rw [incrAtSquare_eq]
        exact gridShape_npIncr M _ _ hM (by omega)
      rw [ih _ hts' hM', incrAtSquare_eq,
        npGet_npIncr M _ _ x y hM (by omega) (by omega) hx hy]
      by_cases hcell : t / 8 = x ∧ t % 8 = y
      · rw [if_pos hcell]
        have hpred : (attacksFromTo b s t && (t / 8 == x) && (t % 8 == y)) = true := by
          simp [hatt, hcell.1, hcell.2]
        rw [hpred]
        simp only [if_true]
        rw [countWrapIter_succ]
      · rw [if_neg hcell]
        have hpred : (attacksFromTo b s t && (t / 8 == x) && (t % 8 == y)) = false := by
          rcases not_and_or.mp hcell with h | h <;> simp [hatt, h]
        rw [hpred]
        simp
    · rw [if_neg hatt, ih _ hts' hM]
      have hpred : (attacksFromTo b s t && (t / 8 == x) && (t % 8 == y)) = false := by
        simp [hatt]
      rw [hpred]
      simp

theorem countP_singleton_pred (ts : List Nat) (c : Nat) (q : Nat → Bool) :
    ts.Nodup → c ∈ ts →
    ts.countP (fun t => q t && (t == c)) = if q c then 1 else 0 := by
  induction ts with
  | nil =>
    intro _ hc
    cases hc
  | cons a ts ih =>
    intro hN hc
    obtain ⟨hna, hN'⟩ := List.nodup_cons.1 hN
    rw [List.countP_cons]
    rcases List.mem_cons.1 hc with h | h
    · subst h
      have hz : ts.countP (fun t => q t && (t == c)) = 0 :=
        List.countP_eq_zero.2 (fun t ht => by
          have hne : t ≠ c := fun e => hna (e ▸ ht)
          simp [hne])
      rw [hz]
      by_cases hq : q c <;> simp [hq]
    · have ha : (a == c) = false := by
        have hne : a ≠ c := fun e => hna (e ▸ h)
        simp [hne]
      rw [ih hN' h]
      simp [ha]

theorem countP_target_cell (att : Nat → Bool) (x y : Nat)
    (hx : x < 8) (hy : y < 8) :
    chessSQUARES.countP (fun t => att t && (t / 8 == x) && (t % 8 == y)) =
      if att (x * 8 + y) then 1 else 0 := by
  have hcong : chessSQUARES.countP
      (fun t => att t && (t / 8 == x) && (t % 8 == y)) =
      chessSQUARES.countP (fun t => att t && (t == x * 8 + y)) := by
    apply List.countP_congr
    intro t _
    by_cases h : t = x * 8 + y
    · subst h
      have h1 : (x * 8 + y) / 8 = x := by omega
      have h2 : (x * 8 + y) % 8 = y := by omega
      simp [h1, h2]
    · have hne : ¬(t / 8 = x ∧ t % 8 = y) := fun hc => h (by omega)
      rcases not_and_or.mp hne with h' | h' <;> simp [h', h]
  rw [hcong]
  exact countP_singleton_pred chessSQUARES (x * 8 + y) att
    (List.nodup_range 64) (List.mem_range.mpr (by omega))

theorem npGet_zeros (x y : Nat) (hx : x < 8) (hy : y < 8) :
    npGet npZeros8x8 x y = 0 := by
  simp only [npGet, npZeros8x8, List.getD_eq_getElem?_getD]
  rw [List.getElem?_replicate_of_lt hx, Option.getD_some,
    List.getElem?_replicate_of_lt hy, Option.getD_some]

/-- Each cell of the grid built by the loops of `get_attack_count_by_color`
holds exactly the number of occupied squares whose piece attacks it — the
int8 accumulation never wraps because at most 64 squares are occupied. -/
theorem chessSQUARES_bound : ∀ t ∈ chessSQUARES, t < 64 := by
  intro t ht
  simpa [chessSQUARES] using List.mem_range.mp ht

theorem npGet_attackGrid (b : Board) (os : List Nat) (x y : Nat)
    (hlen : os.length ≤ 64) (hx : x < 8) (hy : y < 8) :
    npGet (attackGrid b os) x y =
      (os.countP (fun s => attacksFromTo b s (x * 8 + y)) : Int) := by
  have key : ∀ (os' : List Nat) (M : GridI), GridShape M →
      npGet (os'.foldl (fun acc square => innerFold b square chessSQUARES acc) M)
          x y =
        countWrapIter (os'.countP (fun s => attacksFromTo b s (x * 8 + y)))
          (npGet M x y) := by
    intro os'
    induction os' with
    | nil => intro M _; simp [countWrapIter]
    | cons s os' ih =>
      intro M hM
      simp only [List.foldl_cons, List.countP_cons]
      rw [ih _ (gridShape_innerFold b s chessSQUARES M chessSQUARES_bound hM)]
      rw [npGet_innerFold b s chessSQUARES M x y chessSQUARES_bound hM hx hy]
      rw [countP_target_cell (fun t => attacksFromTo b s t) x y hx hy]
      rw [countWrapIter_comp]
      by_cases hatt : attacksFromTo b s (x * 8 + y) <;> simp [hatt, Nat.add_comm]
  have hc := List.countP_le_length
    (p := fun s => attacksFromTo b s (x * 8 + y)) (l := os)
  rw [show attackGrid b os =
      os.foldl (fun acc square => innerFold b square chessSQUARES acc) npZeros8x8
      from rfl]
  rw [key os npZeros8x8 gridShape_zeros, npGet_zeros x y hx hy]
  rw [countWrapIter_no_wrap _ 0 le_rfl (by omega)]
  omega

theorem gridShape_attackGrid (b : Board) (os : List Nat) :
    GridShape (attackGrid b os) := by
  have key : ∀ (os' : List Nat) (M : GridI), GridShape M →
      GridShape (os'.foldl
        (fun acc square => innerFold b square chessSQUARES acc) M) := by
    intro os'
    induction os' with
    | nil => intro M hM; exact hM
    | cons s os' ih =>
      intro M hM
      exact ih _ (gridShape_innerFold b s chessSQUARES M chessSQUARES_bound hM)
  exact key os npZeros8x8 gridShape_zeros

theorem get_attack_count_ok (b : Board) (color : String) (c : PColor)
    (hc : parseColor color = some c) :
    get_attack_count_by_color b color =
      Except.ok (attackGrid b (occupiedFilter b c)) := by
  simp [get_attack_count_by_color, get_occupied_squares_by_color, hc]

theorem occupiedFilter_length_le (b : Board) (c : PColor) :
    (occupiedFilter b c).length ≤ 64 :=
  le_trans (List.length_filter_le _ _) (by simp [chessSQUARES])

/-- C6: for every board position and valid color selector, the Attack Counter
returns a grid with an entry for each of the 64 squares (8 rows of 8 cells),
every entry a non-negative integer, and the cell of a square attacked by zero
pieces of that color holding count zero. -/
theorem C6_grid_total (b : Board) (color : String) (c : PColor)
    (hc : parseColor color = some c) :
    ∃ g, get_attack_count_by_color b color = Except.ok g ∧
      g.length = 8 ∧ (∀ row ∈ g, row.length = 8) ∧
      (∀ x y : Nat, x < 8 → y < 8 → 0 ≤ npGet g x y) ∧
      (∀ x y : Nat, x < 8 → y < 8 →
        (∀ s ∈ occupiedFilter b c, attacksFromTo b s (x * 8 + y) = false) →
        npGet g x y = 0) := by
  refine ⟨attackGrid b (occupiedFilter b c), get_attack_count_ok b color c hc,
    (gridShape_attackGrid b _).1, (gridShape_attackGrid b _).2, ?_, ?_⟩
  · intro x y hx hy
    rw [npGet_attackGrid b _ x y (occupiedFilter_length_le b c) hx hy]
    exact Int.natCast_nonneg _
  · intro x y hx hy hzero
    rw [npGet_attackGrid b _ x y (occupiedFilter_length_le b c) hx hy]
    have hz : (occupiedFilter b c).countP
        (fun s => attacksFromTo b s (x * 8 + y)) = 0 :=
      List.countP_eq_zero.2 (fun s hs => by simp [hzero s hs])
    simp [hz]

/-- Witness for C6 on the initial position with selector "white". -/
theorem C6_grid_total_witness :
    parseColor "white" = some PColor.white ∧
    (∃ g, get_attack_count_by_color startBoard "white" = Except.ok g ∧
      g.length = 8 ∧ (∀ row ∈ g, row.length = 8) ∧
      (∀ x y : Nat, x < 8 → y < 8 → 0 ≤ npGet g x y) ∧
      (∀ x y : Nat, x < 8 → y < 8 →
        (∀ s ∈ occupiedFilter startBoard PColor.white,
          attacksFromTo startBoard s (x * 8 + y) = false) →
        npGet g x y = 0)) :=
  ⟨by decide, C6_grid_total startBoard "white" PColor.white (by decide)⟩

/-- C10: each cell of the int8-typed grid equals the exact attacker count —
the 8-bit accumulation never wraps modulo 2^8 — because each occupied square
increments a given cell at most once; so a cell is bounded by the number of
pieces of the requested color, hence by 16 whenever at most 16 such pieces
are on the board, and always stays below 2^7. -/
theorem C10_no_overflow (b : Board) (color : String) (c : PColor)
    (hc : parseColor color = some c) (x y : Nat) (hx : x < 8) (hy : y < 8) :
    ∃ g, get_attack_count_by_color b color = Except.ok g ∧
      npGet g x y = ((occupiedFilter b c).countP
        (fun s => attacksFromTo b s (x * 8 + y)) : Int) ∧
      npGet g x y ≤ ((occupiedFilter b c).length : Int) ∧
      ((occupiedFilter b c).length ≤ 16 → npGet g x y ≤ 16) ∧
      npGet g x y < 2 ^ 7 := by
  have hcnt : (occupiedFilter b c).countP
      (fun s => attacksFromTo b s (x * 8 + y)) ≤ (occupiedFilter b c).length :=
    List.countP_le_length _
  have hlen := occupiedFilter_length_le b c
  refine ⟨attackGrid b (occupiedFilter b c), get_attack_count_ok b color c hc,
    ?_, ?_, ?_, ?_⟩ <;>
    rw [npGet_attackGrid b _ x y hlen hx hy]
  · omega
  · intro h
    omega
  · omega

/-- Witness for C10 on the initial position, selector "white", cell (2, 2). -/
theorem C10_no_overflow_witness :
    (parseColor "white" = some PColor.white ∧ 2 < 8 ∧ 2 < 8) ∧
    (∃ g, get_attack_count_by_color startBoard "white" = Except.ok g ∧
      npGet g 2 2 = ((occupiedFilter startBoard PColor.white).countP
        (fun s => attacksFromTo startBoard s (2 * 8 + 2)) : Int) ∧
      npGet g 2 2 ≤ ((occupiedFilter startBoard PColor.white).length : Int) ∧
      ((occupiedFilter startBoard PColor.white).length ≤ 16 → npGet g 2 2 ≤ 16) ∧
      npGet g 2 2 < 2 ^ 7) :=
  ⟨⟨by decide, by decide, by decide⟩,
    C10_no_overflow startBoard "white" PColor.white (by decide) 2 2
      (by decide) (by decide)⟩

/-- C2 (evaluation of the code at the failing input): with the invalid
selector "blue", `get_occupied_squares_by_color` RETURNS the `ValueError`
object as an ordinary value instead of raising it, and
`get_attack_count_by_color` consequently fails with a `TypeError` raised by
iterating the error object — not with the invalid-argument (`ValueError`)
signal the claim requires. -/
theorem C2_failing_eval :
    get_occupied_squares_by_color startBoard "blue" =
      Sum.inl (PyErr.valueError
        "parameters of the functions should be white or black (case insensitive)") ∧
    get_attack_count_by_color startBoard "blue" =
      Except.error (PyErr.typeError "ValueError object is not iterable") := by
  constructor <;> rfl

/-! Claim C9: explicit state threading through the Attack Counter.  Every
python-chess primitive the function touches (`piece_at`, `attacks`) is a
read-only query; the embedding passes the board through each call and the
theorem shows the board coming out is the board that went in. -/

/-- Models `board.piece_at(square)` as an explicit state-passing read: the
query returns its answer together with the (untouched) board. -/
def piece_at_st (b : Board) (square : Nat) : Option Piece × Board :=
  (b.pieceAt square, b)

/-- Models `board.attacks(square).tolist()` as an explicit state-passing read:
the 64-entry attack membership list, together with the (untouched) board. -/
def attacks_st (b : Board) (square : Nat) : List Bool × Board :=
  (chessSQUARES.map (fun t => attacksFromTo b square t), b)

/-- One iteration of the occupancy loop with explicit state passing: the body
reads `board.piece_at` twice per square (src/utility_functions.py:26), and the
board coming out of each read is passed on. -/
def occStepST (c : PColor) (acc : List Nat × Board) (square : Nat) :
    List Nat × Board :=
  let q1 := piece_at_st acc.2 square
  let q2 := piece_at_st q1.2 square
  match q1.1, q2.1 with
  | some _, some p =>
    if p.color = c then (acc.1 ++ [square], q2.2) else (acc.1, q2.2)
  | _, _ => (acc.1, q2.2)

/-- State-threaded embedding of `get_occupied_squares_by_color`. -/
def get_occupied_squares_by_color_st (board : Board) (color : String) :
    (PyErr ⊕ List Nat) × Board :=
  match parseColor color with
  | some c =>
    let r := chessSQUARES.foldl (occStepST c) ([], board)
    (Sum.inr r.1, r.2)
  | none =>
    (Sum.inl (PyErr.valueError
      "parameters of the functions should be white or black (case insensitive)"),
      board)

/-- One iteration of the counting loop with explicit state passing: one
`board.attacks` query per occupied square (src/utility_functions.py:58-66). -/
def countStepST (acc : GridI × Board) (square : Nat) : GridI × Board :=
  let qa := attacks_st acc.2 square
  (chessSQUARES.foldl (fun acc2 square_ =>
    if qa.1.getD square_ false then incrAtSquare acc2 square_ else acc2) acc.1,
    qa.2)

/-- State-threaded embedding of `get_attack_count_by_color`
(src/utility_functions.py:44-68): the board is passed through the occupancy
query and through every `board.attacks` call of the counting loop. -/
def get_attack_count_by_color_st (chess_board : Board) (color : String) :
    Except PyErr GridI × Board :=
  let occ := get_occupied_squares_by_color_st chess_board color
  match occ.1 with
  | Sum.inl _ =>
    (Except.error (PyErr.typeError "ValueError object is not iterable"), occ.2)
  | Sum.inr occupied_squares =>
    let r := occupied_squares.foldl countStepST (npZeros8x8, occ.2)
    (Except.ok r.1, r.2)

theorem occStepST_board (c : PColor) (acc : List Nat × Board) (square : Nat) :
    (occStepST c acc square).2 = acc.2 := by
  simp only [occStepST, piece_at_st]
  cases acc.2.pieceAt square with
  | none => rfl
  | some p => by_cases hcl : p.color = c <;> simp [hcl]

theorem countStepST_board (acc : GridI × Board) (square : Nat) :
    (countStepST acc square).2 = acc.2 := rfl

theorem foldl_board_inv {α β : Type} (l : List α) (f : β × Board → α → β × Board)
    (h : ∀ acc a, (f acc a).2 = acc.2) :
    ∀ acc : β × Board, (l.foldl f acc).2 = acc.2 := by
  induction l with
  | nil =>
    intro acc
    rfl
  | cons a l ih =>
    intro acc
    rw [List.foldl_cons, ih, h]

theorem occupied_st_board (board : Board) (color : String) :
    (get_occupied_squares_by_color_st board color).2 = board := by
  rw [get_occupied_squares_by_color_st]
  cases hpc : parseColor color with
  | none => rfl
  | some c =>
    simp only
    exact foldl_board_inv chessSQUARES (occStepST c) (occStepST_board c)
      ([], board)

/-- C9: for every board position and valid color selector, the Attack Counter
leaves the input board unchanged — threading the board through every
primitive query it performs returns exactly the input board. -/
theorem C9_board_unchanged (b : Board) (color : String)
    (h : (parseColor color).isSome = true) :
    (get_attack_count_by_color_st b color).2 = b := by
  have hocc := occupied_st_board b color
  unfold get_attack_count_by_color_st
  cases hx : (get_occupied_squares_by_color_st b color).1 with
  | inl e =>
    simp only [hx]
    exact hocc
  | inr os =>
    simp only [hx]
    rw [foldl_board_inv os countStepST countStepST_board]
    exact hocc

/-- Witness for C9 on the initial position with selector "white". -/
theorem C9_board_unchanged_witness :
    (parseColor "white").isSome = true ∧
    (get_attack_count_by_color_st startBoard "white").2 = startBoard :=
  ⟨by decide, C9_board_unchanged startBoard "white" (by decide)⟩

/-! Claims C1 and C8: the Game Attack Tabulator. -/

/-- A move of the external library (`chess.Move`): source and target square. -/
structure Move where
  fromSq : Nat
  toSq : Nat
deriving DecidableEq

/-- A parsed game record (`chess.pgn.Game`): a starting position plus the
mainline move sequence. -/
structure Game where
  start : Board
  mainline : List Move

/-- Models `game.board()`: the game's initial position. -/
def Game.board (g : Game) : Board := g.start

/-- Models `game.mainline_moves()`. -/
def Game.mainline_moves (g : Game) : List Move := g.mainline

/-- Rank direction in which pawns of a color advance. -/
def pawnDir : PColor → Int
  | .white => 1
  | .black => -1

/-- Rank from which pawns of a color may double-step. -/
def pawnHomeRank : PColor → Int
  | .white => 1
  | .black => 6

/-- The side that moves after a move is applied. -/
def oppColor : PColor → PColor
  | .white => .black
  | .black => .white

/-- Pawn moves: a capture onto an occupied square along the pawn's attack
pattern, a single step onto an empty square, or a double step from the home
rank across an empty square. -/
def pawnMoveOk (b : Board) (p : Piece) (m : Move) : Bool :=
  let rs := rkOf m.fromSq
  let fs := flOf m.fromSq
  let rt := rkOf m.toSq
  let ft := flOf m.toSq
  let d := pawnDir p.color
  (attacksFromTo b m.fromSq m.toSq && (b.pieceAt m.toSq).isSome) ||
  (fs == ft && (b.pieceAt m.toSq).isNone &&
    (rt - rs == d ||
      (rt - rs == 2 * d && rs == pawnHomeRank p.color &&
        (b.pieceAt (sqOf (rs + d) fs)).isNone)))

/-- Modelled from the spec: the legality check of the external rules engine
("legal-move application ... per standard chess semantics", spec section 6).
The moving side, movement geometry and target occupancy are checked; castling,
en passant, promotion and check evasion are not modelled — no claim instance
depends on them. -/
def legalMoveB (b : Board) (m : Move) : Bool :=
  decide (m.fromSq < 64) && decide (m.toSq < 64) && (m.fromSq != m.toSq) &&
  match b.pieceAt m.fromSq with
  | none => false
  | some p =>
    (p.color == b.turn) &&
    (match b.pieceAt m.toSq with
      | some q => !(q.color == p.color)
      | none => true) &&
    (if p.kind == PKind.pawn then pawnMoveOk b p m
      else attacksFromTo b m.fromSq m.toSq)

/-- Applying a move: the source square is emptied, the moved piece lands on
the target square, and the side to move flips. -/
def applyMove (b : Board) (m : Move) : Board :=
  { squares := (b.squares.set m.fromSq none).set m.toSq (b.pieceAt m.fromSq),
    turn := oppColor b.turn }

/-- Modelled from the spec: move application by the external rules-engine
collaborator ("legal-move application", spec section 6; "an illegal move in
the input sequence must fail fast", section 4.2): a legal move is applied, an
illegal one signals a failure. -/
def pushModel (b : Board) (m : Move) : Except PyErr Board :=
  if legalMoveB b m then Except.ok (applyMove b m)
  else Except.error (PyErr.valueError "illegal move in game record")

/-- Replaying a move list through a move-application function, propagating
the first failure. -/
def replay (pushF : Board → Move → Except PyErr Board) :
    Board → List Move → Except PyErr Board
  | b, [] => Except.ok b
  | b, m :: ms =>
    match pushF b m with
    | Except.error e => Except.error e
    | Except.ok b' => replay pushF b' ms

/-- One row of the per-game table: the white and the black attack grid. -/
abbrev DfRow := GridI × GridI

/-- Models `df.loc[i] = row` on a dataframe whose integer labels are
`0..len-1`: overwrite the row labelled `i` if it exists, else append it. -/
def dfLocSet (df : List DfRow) (i : Nat) (row : DfRow) : List DfRow :=
  if i < df.length then df.set i row else df ++ [row]

/-- The loop of `get_game_as_attack_df` (src/utility_functions.py:87-92):
`for i, move in enumerate(game.mainline_moves())` — `i` starts at 0 — each
iteration pushing the move onto the running board and assigning `df.loc[i]`
the white and black attack counts of the updated position. -/
def tabulate (pushF : Board → Move → Except PyErr Board) :
    List Move → Nat → Board → List DfRow → Except PyErr (List DfRow)
  | [], _, _, df => Except.ok df
  | move :: rest, i, game_board, df =>
    match pushF game_board move with
    | Except.error e => Except.error e
    | Except.ok game_board' =>
      match get_attack_count_by_color game_board' "white" with
      | Except.error e => Except.error e
      | Except.ok w =>
        match get_attack_count_by_color game_board' "black" with
        | Except.error e => Except.error e
        | Except.ok bl =>
          tabulate pushF rest (i + 1) game_board' (dfLocSet df i (w, bl))

/-- Embeds `get_game_as_attack_df` (src/utility_functions.py:71-94), with the
external rules engine's move application passed in as `pushF`.  `df.loc[0]` is
first assigned the initial position's counts; the loop then enumerates the
mainline moves from index 0, so its first iteration assigns `df.loc[0]`
again. -/
def get_game_as_attack_df (pushF : Board → Move → Except PyErr Board)
    (game : Game) : Except PyErr (List DfRow) :=
  match get_attack_count_by_color game.board "white" with
  | Except.error e => Except.error e
  | Except.ok w0 =>
    match get_attack_count_by_color game.board "black" with
    | Except.error e => Except.error e
    | Except.ok b0 =>
      tabulate pushF game.mainline_moves 0 game.board (dfLocSet [] 0 (w0, b0))

theorem gac_white_ok (b : Board) :
    get_attack_count_by_color b "white" =
      Except.ok (attackGrid b (occupiedFilter b PColor.white)) :=
  get_attack_count_ok b "white" PColor.white (by decide)

theorem gac_black_ok (b : Board) :
    get_attack_count_by_color b "black" =
      Except.ok (attackGrid b (occupiedFilter b PColor.black)) :=
  get_attack_count_ok b "black" PColor.black (by decide)

theorem tabulate_error (pushF : Board → Move → Except PyErr Board)
    (ms : List Move) (e : PyErr) :
    ∀ (i : Nat) (b : Board) (df : List DfRow),
      replay pushF b ms = Except.error e →
      tabulate pushF ms i b df = Except.error e := by
  induction ms with
  | nil =>
    intro i b df h
    simp [replay] at h
  | cons m ms ih =>
    intro i b df h
    rw [replay] at h
    rw [tabulate]
    cases hp : pushF b m with
    | error e' =>
      rw [hp] at h
      simpa using h
    | ok b' =>
      rw [hp] at h
      simp only [gac_white_ok, gac_black_ok]
      exact ih _ _ _ h

/-- C8: whenever replaying the game's move sequence fails on an illegal move
(for any move-application collaborator `pushF`), the tabulator propagates
exactly that failure and returns no table of any kind, complete or not. -/
theorem C8_fail_fast (pushF : Board → Move → Except PyErr Board) (game : Game)
    (e : PyErr)
    (h : replay pushF game.board game.mainline_moves = Except.error e) :
    get_game_as_attack_df pushF game = Except.error e := by
  rw [get_game_as_attack_df]
  simp only [gac_white_ok, gac_black_ok]
  exact tabulate_error pushF game.mainline_moves e 0 game.board _ h

/-- The game record whose single recorded move stands on an empty source
square (e3 to e4 from the initial position): an illegal move. -/
def gBad : Game := ⟨startBoard, [⟨20, 28⟩]⟩

/-- Witness for C8: on `gBad` the replay fails and the tabulator propagates
the same failure. -/
theorem C8_fail_fast_witness :
    replay pushModel gBad.board gBad.mainline_moves =
      Except.error (PyErr.valueError "illegal move in game record") ∧
    get_game_as_attack_df pushModel gBad =
      Except.error (PyErr.valueError "illegal move in game record") :=
  ⟨rfl, C8_fail_fast pushModel gBad _ rfl⟩

/-- The one-legal-move game 1. e4 (pawn e2 to e4). -/
def gE4 : Game := ⟨startBoard, [⟨12, 28⟩]⟩

set_option maxRecDepth 100000 in
/-- C1 (evaluation of the code at the failing input): for the one-legal-move
game 1. e4 the tabulator returns a table of ONE row — not the two the claim
requires — and that row holds the counts of the position AFTER the move, not
the initial position's: the loop enumerates moves from index 0, so its first
iteration overwrites row 0, which had just been assigned the initial counts.
The cell (4, 3) — square d5 — separates them: the white grid of the returned
row 0 counts 1 (the pawn on e4 attacks d5) while the initial position's white
grid counts 0 there. -/
theorem C1_failing_eval :
    (get_game_as_attack_df pushModel gE4).map List.length = Except.ok 1 ∧
    (get_game_as_attack_df pushModel gE4).map
      (fun df => npGet (df.getD 0 ([], [])).1 4 3) = Except.ok 1 ∧
    npGet (attackGrid startBoard (occupiedFilter startBoard PColor.white))
      4 3 = 0 :=
  ⟨rfl, rfl, rfl⟩

/-! Claims C3, C4 and C7: the Surface Synthesizer `create_XYZ`. -/

/-- A numpy 2D float array: its shape plus its entries. -/
structure NpMat (α : Type) where
  rows : Nat
  cols : Nat
  entry : Int → Int → α

/-- Models `np.arange(0, n)` (empty when `n ≤ 0`). -/
def np_arange (n : Int) : List Int :=
  (List.range n.toNat).map (fun (k : Nat) => (k : Int))

/-- Models `np.meshgrid(xs, ys)` with the default indexing: `X[i][j] = xs[j]`
and `Y[i][j] = ys[i]`, both of shape `(len ys, len xs)`. -/
def np_meshgrid (xs ys : List Int) : NpMat Int × NpMat Int :=
  (⟨ys.length, xs.length, fun _ j => xs.getD j.toNat 0⟩,
    ⟨ys.length, xs.length, fun i _ => ys.getD i.toNat 0⟩)

/-- Models `np.zeros(shape=(n, m))`: numpy raises a `ValueError` on negative
dimensions. -/
def np_zeros (n m : Int) : Except PyErr (NpMat ℚ) :=
  if n < 0 ∨ m < 0 then
    Except.error (PyErr.valueError "negative dimensions are not allowed")
  else Except.ok ⟨n.toNat, m.toNat, fun _ _ => 0⟩

/-- Embeds `gaussian_3d` (src/utility_functions.py:126-133) over exact
rationals.  `math.exp` is abstracted as the function parameter `E`: the
claims concern the expression the code builds around the exponential, not
floating-point values of `exp` itself. -/
def gaussian_3d (E : ℚ → ℚ) (x y height_of_hill spread
    peak_position_x peak_position_y : ℚ) : ℚ :=
  let var_1 := ((x - peak_position_x) ^ 2) / (2 * spread ^ 2)
  let var_2 := ((y - peak_position_y) ^ 2) / (2 * spread ^ 2)
  height_of_hill * E (-(var_1 + var_2))

/-- Models Python `range(a, b)` over machine integers. -/
def intRange (a b : Int) : List Int :=
  (List.range (b - a).toNat).map (fun (k : Nat) => a + (k : Int))

/-- Models `Z[k][l] = v`: the shape of a numpy array never changes under
element assignment. -/
def setEntry (M : NpMat ℚ) (k l : Int) (v : ℚ) : NpMat ℚ :=
  { M with entry := fun a b => if a = k ∧ b = l then v else M.entry a b }

/-- The per-square block-fill loops of `create_XYZ`
(src/utility_functions.py:157-175): peak at `(i*dal + dal/2, j*dal + dal/2)`,
spread `dal/2`, and one `gaussian_3d` evaluation written to every `Z[k][l]`
with `k` in `range(i*dal, (i+1)*dal)` and `l` in `range(j*dal, (j+1)*dal)`. -/
def blockFill (E : ℚ → ℚ) (attack_count : ℚ) (dal : Int) (i j : Nat)
    (Z : NpMat ℚ) : NpMat ℚ :=
  let peak_x : ℚ := (i : ℚ) * (dal : ℚ) + (dal : ℚ) / 2
  let peak_y : ℚ := (j : ℚ) * (dal : ℚ) + (dal : ℚ) / 2
  let spread : ℚ := (dal : ℚ) / 2
  (intRange ((i : Int) * dal) (((i : Int) + 1) * dal)).foldl (fun Z1 k =>
    (intRange ((j : Int) * dal) (((j : Int) + 1) * dal)).foldl (fun Z2 l =>
      setEntry Z2 k l
        (gaussian_3d E (k : ℚ) (l : ℚ) attack_count spread peak_x peak_y))
      Z1) Z

/-- Embeds `create_XYZ` (src/utility_functions.py:136-177): the X/Y meshes
are built from `np.arange(0, dal*8)`, then `np.zeros` allocates Z (raising on
negative dimensions), then the 8x8 nested loops fill each square's sub-block
from the attack matrix. -/
def create_XYZ (E : ℚ → ℚ) (attack_matrix : Nat → Nat → ℚ)
    (datapoints_along_square : Int) :
    Except PyErr (NpMat Int × NpMat Int × NpMat ℚ) :=
  let dal := datapoints_along_square
  let datapoints_along_board := dal * 8
  let X0 := np_arange datapoints_along_board
  let Y0 := np_arange datapoints_along_board
  let XY := np_meshgrid X0 Y0
  match np_zeros datapoints_along_board datapoints_along_board with
  | Except.error e => Except.error e
  | Except.ok Z0 =>
    Except.ok (XY.1, XY.2,
      (List.range 8).foldl (fun Zi i =>
        (List.range 8).foldl (fun Zj j =>
          blockFill E (attack_matrix i j) dal i j Zj) Zi) Z0)

theorem mem_intRange (a b k : Int) : k ∈ intRange a b ↔ a ≤ k ∧ k < b := by
  constructor
  · intro h
    obtain ⟨n, hn, hk⟩ := List.mem_map.1 h
    have hn' := List.mem_range.1 hn
    omega
  · intro h
    apply List.mem_map.2
    exact ⟨(k - a).toNat, List.mem_range.2 (by omega), by omega⟩

theorem entry_foldl_inner (w : Int → ℚ) (ls : List Int) (k : Int)
    (Z : NpMat ℚ) (a b : Int) :
    ((ls.foldl (fun Z2 l => setEntry Z2 k l (w l)) Z).entry a b) =
      if a = k ∧ b ∈ ls then w b else Z.entry a b := by
  induction ls generalizing Z with
  | nil => simp
  | cons l ls ih =>
    rw [List.foldl_cons, ih]
    by_cases hb : a = k ∧ b ∈ ls
    · rw [if_pos hb, if_pos ⟨hb.1, List.mem_cons_of_mem l hb.2⟩]
    · rw [if_neg hb]
      simp only [setEntry]
      by_cases hab : a = k ∧ b = l
      · rw [if_pos hab, if_pos ⟨hab.1, by rw [hab.2]; exact List.mem_cons_self l ls⟩,
          hab.2]
      · rw [if_neg hab, if_neg (fun hc => by
          rcases List.mem_cons.1 hc.2 with h | h
          · exact hab ⟨hc.1, h⟩
          · exact hb ⟨hc.1, h⟩)]

theorem entry_foldl_block (w : Int → Int → ℚ) (ks ls : List Int)
    (Z : NpMat ℚ) (a b : Int) :
    ((ks.foldl (fun Z1 k => ls.foldl
        (fun Z2 l => setEntry Z2 k l (w k l)) Z1) Z).entry a b) =
      if a ∈ ks ∧ b ∈ ls then w a b else Z.entry a b := by
  induction ks generalizing Z with
  | nil => simp
  | cons k ks ih =>
    rw [List.foldl_cons, ih]
    by_cases h : a ∈ ks ∧ b ∈ ls
    · rw [if_pos h, if_pos ⟨List.mem_cons_of_mem k h.1, h.2⟩]
    · rw [if_neg h, entry_foldl_inner]
      by_cases h2 : a = k ∧ b ∈ ls
      · rw [if_pos h2, if_pos ⟨by rw [h2.1]; exact List.mem_cons_self k ks, h2.2⟩,
          h2.1]
      · rw [if_neg h2, if_neg (fun hc => by
          rcases List.mem_cons.1 hc.1 with hh | hh
          · exact h2 ⟨hh, hc.2⟩
          · exact h ⟨hh, hc.2⟩)]

/-- The single `gaussian_3d` value written throughout the `(i, j)` block. -/
def gaussVal (E : ℚ → ℚ) (c : ℚ) (dal : Int) (i j : Nat) (k l : Int) : ℚ :=
  gaussian_3d E (k : ℚ) (l : ℚ) c ((dal : ℚ) / 2)
    ((i : ℚ) * (dal : ℚ) + (dal : ℚ) / 2) ((j : ℚ) * (dal : ℚ) + (dal : ℚ) / 2)

theorem entry_blockFill (E : ℚ → ℚ) (c : ℚ) (dal : Int) (i j : Nat)
    (Z : NpMat ℚ) (a b : Int) :
    (blockFill E c dal i j Z).entry a b =
      if ((i : Int) * dal ≤ a ∧ a < ((i : Int) + 1) * dal) ∧
          ((j : Int) * dal ≤ b ∧ b < ((j : Int) + 1) * dal) then
        gaussVal E c dal i j a b
      else Z.entry a b := by
  rw [show blockFill E c dal i j Z =
      (intRange ((i : Int) * dal) (((i : Int) + 1) * dal)).foldl (fun Z1 k =>
        (intRange ((j : Int) * dal) (((j : Int) + 1) * dal)).foldl
          (fun Z2 l => setEntry Z2 k l (gaussVal E c dal i j k l)) Z1) Z
      from rfl]
  rw [entry_foldl_block (gaussVal E c dal i j)]
  by_cases h : (a ∈ intRange ((i : Int) * dal) (((i : Int) + 1) * dal)) ∧
      (b ∈ intRange ((j : Int) * dal) (((j : Int) + 1) * dal))
  · rw [if_pos h, if_pos ⟨(mem_intRange _ _ _).1 h.1, (mem_intRange _ _ _).1 h.2⟩]
  · rw [if_neg h, if_neg (fun hc =>
      h ⟨(mem_intRange _ _ _).2 hc.1, (mem_intRange _ _ _).2 hc.2⟩)]

theorem blk_index (d : Int) (hd : 0 < d) (i : Nat) (k : Int)
    (h1 : (i : Int) * d ≤ k) (h2 : k < ((i : Int) + 1) * d) :
    (i : Int) = k / d := by
  have ha : (i : Int) ≤ k / d := (Int.le_ediv_iff_mul_le hd).mpr h1
  have hb : k / d < (i : Int) + 1 := by
    rw [Int.ediv_lt_iff_lt_mul hd]
    exact h2
  omega

theorem blockFill_miss (E : ℚ → ℚ) (c : ℚ) (dal : Int) (i j : Nat)
    (Z : NpMat ℚ) (a b : Int)
    (h : ¬(((i : Int) * dal ≤ a ∧ a < ((i : Int) + 1) * dal) ∧
      ((j : Int) * dal ≤ b ∧ b < ((j : Int) + 1) * dal))) :
    (blockFill E c dal i j Z).entry a b = Z.entry a b := by
  rw [entry_blockFill, if_neg h]

theorem rowFill_miss (E : ℚ → ℚ) (A : Nat → Nat → ℚ) (dal : Int) (i' : Nat)
    (js : List Nat) (Z : NpMat ℚ) (a b : Int)
    (h : ¬((i' : Int) * dal ≤ a ∧ a < ((i' : Int) + 1) * dal)) :
    (js.foldl (fun Zj j' => blockFill E (A i' j') dal i' j' Zj) Z).entry a b =
      Z.entry a b := by
  induction js generalizing Z with
  | nil => rfl
  | cons j' js ih =>
    rw [List.foldl_cons, ih, blockFill_miss]
    intro hc
    exact h hc.1

theorem rowFill_keep (E : ℚ → ℚ) (A : Nat → Nat → ℚ) (dal : Int) (i : Nat)
    (js : List Nat) (k l : Int) (Z : NpMat ℚ)
    (h : ∀ u ∈ js, ¬((u : Int) * dal ≤ l ∧ l < ((u : Int) + 1) * dal)) :
    (js.foldl (fun Zj j' => blockFill E (A i j') dal i j' Zj) Z).entry k l =
      Z.entry k l := by
  induction js generalizing Z with
  | nil => rfl
  | cons j' js ih =>
    rw [List.foldl_cons, ih _ (fun u hu => h u (List.mem_cons_of_mem j' hu))]
    exact blockFill_miss E (A i j') dal i j' Z k l
      (fun hc => h j' (List.mem_cons_self j' js) hc.2)

theorem rowFill_hit (E : ℚ → ℚ) (A : Nat → Nat → ℚ) (dal : Int) (hd : 0 < dal)
    (i j : Nat) (k l : Int)
    (hk : (i : Int) * dal ≤ k ∧ k < ((i : Int) + 1) * dal)
    (hl : (j : Int) * dal ≤ l ∧ l < ((j : Int) + 1) * dal) :
    ∀ (js : List Nat), js.Nodup → j ∈ js → ∀ (Z : NpMat ℚ),
      (js.foldl (fun Zj j' => blockFill E (A i j') dal i j' Zj) Z).entry k l =
        gaussVal E (A i j) dal i j k l := by
  intro js
  induction js with
  | nil =>
    intro _ hj
    cases hj
  | cons j' js ih =>
    intro hN hj Z
    obtain ⟨hnj, hN'⟩ := List.nodup_cons.1 hN
    rw [List.foldl_cons]
    rcases List.mem_cons.1 hj with h | h
    · subst h
      rw [rowFill_keep E A dal i js k l _ (fun u hu hc => by
        have h1 : (j : Int) = l / dal := blk_index dal hd j l hl.1 hl.2
        have h2 : (u : Int) = l / dal := blk_index dal hd u l hc.1 hc.2
        have huj : u = j := by omega
        exact hnj (huj ▸ hu))]
      rw [entry_blockFill, if_pos ⟨hk, hl⟩]
    · exact ih hN' h _

theorem gridFill_keep (E : ℚ → ℚ) (A : Nat → Nat → ℚ) (dal : Int)
    (is : List Nat) (k l : Int) (Z : NpMat ℚ)
    (h : ∀ u ∈ is, ¬((u : Int) * dal ≤ k ∧ k < ((u : Int) + 1) * dal)) :
    (is.foldl (fun Zi i' => (List.range 8).foldl
      (fun Zj j' => blockFill E (A i' j') dal i' j' Zj) Zi) Z).entry k l =
      Z.entry k l := by
  induction is generalizing Z with
  | nil => rfl
  | cons i' is ih =>
    rw [List.foldl_cons, ih _ (fun u hu => h u (List.mem_cons_of_mem i' hu)),
      rowFill_miss E A dal i' (List.range 8) Z k l
        (h i' (List.mem_cons_self i' is))]

theorem gridFill_hit (E : ℚ → ℚ) (A : Nat → Nat → ℚ) (dal : Int)
    (hd : 0 < dal) (i j : Nat) (hj8 : j < 8) (k l : Int)
    (hk : (i : Int) * dal ≤ k ∧ k < ((i : Int) + 1) * dal)
    (hl : (j : Int) * dal ≤ l ∧ l < ((j : Int) + 1) * dal) :
    ∀ (is : List Nat), is.Nodup → i ∈ is → ∀ (Z : NpMat ℚ),
      (is.foldl (fun Zi i' => (List.range 8).foldl
        (fun Zj j' => blockFill E (A i' j') dal i' j' Zj) Zi) Z).entry k l =
        gaussVal E (A i j) dal i j k l := by
  intro is
  induction is with
  | nil =>
    intro _ hi
    cases hi
  | cons i' is ih =>
    intro hN hi Z
    obtain ⟨hni, hN'⟩ := List.nodup_cons.1 hN
    rw [List.foldl_cons]
    rcases List.mem_cons.1 hi with h | h
    · subst h
      rw [gridFill_keep E A dal is k l _ (fun u hu hc => by
        have h1 : (i : Int) = k / dal := blk_index dal hd i k hk.1 hk.2
        have h2 : (u : Int) = k / dal := blk_index dal hd u k hc.1 hc.2
        have hui : u = i := by omega
        exact hni (hui ▸ hu))]
      exact rowFill_hit E A dal hd i j k l hk hl (List.range 8)
        (List.nodup_range 8) (List.mem_range.mpr hj8) Z
    · exact ih hN' h _

theorem create_XYZ_reduce (E : ℚ → ℚ) (A : Nat → Nat → ℚ) (d : Int)
    (hd : 0 ≤ d) :
    create_XYZ E A d = Except.ok
      ((np_meshgrid (np_arange (d * 8)) (np_arange (d * 8))).1,
        (np_meshgrid (np_arange (d * 8)) (np_arange (d * 8))).2,
        (List.range 8).foldl (fun Zi i =>
          (List.range 8).foldl (fun Zj j =>
            blockFill E (A i j) d i j Zj) Zi)
          ⟨(d * 8).toNat, (d * 8).toNat, fun _ _ => 0⟩) := by
  have hz : np_zeros (d * 8) (d * 8) =
      Except.ok (⟨(d * 8).toNat, (d * 8).toNat, fun _ _ => (0 : ℚ)⟩ : NpMat ℚ) := by
    rw [np_zeros, if_neg (by omega)]
  simp only [create_XYZ, hz]

/-- C3: for every positive resolution factor d, every original square (i, j),
and every fine-grid point (k, l) inside that square's d-by-d sub-block, the
produced Z grid holds exactly
`A[i][j] * E(-(((k - peak_x)^2 + (l - peak_y)^2) / (2 * spread^2)))` with peak
`(i*d + d/2, j*d + d/2)` and spread `d/2` — a value depending on no other
square's count. -/
theorem C3_surface_gaussian (E : ℚ → ℚ) (A : Nat → Nat → ℚ) (d : Int)
    (hd : 0 < d) (i j : Nat) (hi : i < 8) (hj : j < 8) (k l : Int)
    (hk1 : (i : Int) * d ≤ k) (hk2 : k < ((i : Int) + 1) * d)
    (hl1 : (j : Int) * d ≤ l) (hl2 : l < ((j : Int) + 1) * d) :
    ∃ X Y Z, create_XYZ E A d = Except.ok (X, Y, Z) ∧
      Z.entry k l = A i j *
        E (-((((k : ℚ) - ((i : ℚ) * (d : ℚ) + (d : ℚ) / 2)) ^ 2 +
          ((l : ℚ) - ((j : ℚ) * (d : ℚ) + (d : ℚ) / 2)) ^ 2) /
          (2 * ((d : ℚ) / 2) ^ 2))) := by
  refine ⟨_, _, _, create_XYZ_reduce E A d (by omega), ?_⟩
  rw [gridFill_hit E A d hd i j hj k l ⟨hk1, hk2⟩ ⟨hl1, hl2⟩ (List.range 8)
    (List.nodup_range 8) (List.mem_range.mpr hi)]
  simp only [gaussVal, gaussian_3d]
  rw [div_add_div_same]

/-- Identity function used as a concrete stand-in for `math.exp` when the
theorems are instantiated. -/
def expId : ℚ → ℚ := fun q => q

/-- The all-zero 8x8 attack matrix. -/
def zeroMatrix : Nat → Nat → ℚ := fun _ _ => 0

/-- The all-one 8x8 attack matrix. -/
def oneMatrix : Nat → Nat → ℚ := fun _ _ => 1

/-- Witness for C3 at `d = 1`, square (0, 0), fine point (0, 0). -/
theorem C3_surface_gaussian_witness :
    ((0 : Int) < 1 ∧ (0 : Nat) < 8 ∧ (0 : Nat) < 8 ∧
      ((0 : Nat) : Int) * 1 ≤ 0 ∧ (0 : Int) < (((0 : Nat) : Int) + 1) * 1 ∧
      ((0 : Nat) : Int) * 1 ≤ 0 ∧ (0 : Int) < (((0 : Nat) : Int) + 1) * 1) ∧
    (∃ X Y Z, create_XYZ expId oneMatrix 1 = Except.ok (X, Y, Z) ∧
      Z.entry 0 0 = oneMatrix 0 0 *
        expId (-(((((0 : Int) : ℚ) -
            (((0 : Nat) : ℚ) * ((1 : Int) : ℚ) + ((1 : Int) : ℚ) / 2)) ^ 2 +
          (((0 : Int) : ℚ) -
            (((0 : Nat) : ℚ) * ((1 : Int) : ℚ) + ((1 : Int) : ℚ) / 2)) ^ 2) /
          (2 * (((1 : Int) : ℚ) / 2) ^ 2)))) :=
  ⟨⟨by decide, by decide, by decide, by decide, by decide, by decide, by decide⟩,
    C3_surface_gaussian expId oneMatrix 1 (by decide) 0 0 (by decide)
      (by decide) 0 0 (by decide) (by decide) (by decide) (by decide)⟩

theorem foldl_dims {α : Type} (l : List α) (f : NpMat ℚ → α → NpMat ℚ)
    (h : ∀ Z a, (f Z a).rows = Z.rows ∧ (f Z a).cols = Z.cols) :
    ∀ Z : NpMat ℚ,
      (l.foldl f Z).rows = Z.rows ∧ (l.foldl f Z).cols = Z.cols := by
  induction l with
  | nil =>
    intro Z
    exact ⟨rfl, rfl⟩
  | cons a l ih =>
    intro Z
    rw [List.foldl_cons]
    exact ⟨(ih _).1.trans (h Z a).1, (ih _).2.trans (h Z a).2⟩

theorem blockFill_dims (E : ℚ → ℚ) (c : ℚ) (dal : Int) (i j : Nat)
    (Z : NpMat ℚ) :
    (blockFill E c dal i j Z).rows = Z.rows ∧
    (blockFill E c dal i j Z).cols = Z.cols := by
  simp only [blockFill]
  refine foldl_dims _ _ ?_ Z
  intro Z1 k
  refine foldl_dims _ _ ?_ Z1
  intro Z2 l
  exact ⟨rfl, rfl⟩

theorem gridFill_dims (E : ℚ → ℚ) (A : Nat → Nat → ℚ) (dal : Int)
    (is : List Nat) (Z : NpMat ℚ) :
    ((is.foldl (fun Zi i' => (List.range 8).foldl
      (fun Zj j' => blockFill E (A i' j') dal i' j' Zj) Zi) Z).rows = Z.rows ∧
      (is.foldl (fun Zi i' => (List.range 8).foldl
      (fun Zj j' => blockFill E (A i' j') dal i' j' Zj) Zi) Z).cols = Z.cols) :=
  foldl_dims _ _
    (fun Zi i' => foldl_dims _ _
      (fun Zj j' => blockFill_dims E (A i' j') dal i' j' Zj) Zi)
    Z

theorem allZero_blockFill (E : ℚ → ℚ) (dal : Int) (i j : Nat) (Z : NpMat ℚ)
    (hZ : ∀ k l, Z.entry k l = 0) :
    ∀ k l, (blockFill E 0 dal i j Z).entry k l = 0 := by
  intro k l
  rw [entry_blockFill]
  by_cases h : ((i : Int) * dal ≤ k ∧ k < ((i : Int) + 1) * dal) ∧
      ((j : Int) * dal ≤ l ∧ l < ((j : Int) + 1) * dal)
  · rw [if_pos h]
    simp [gaussVal, gaussian_3d]
  · rw [if_neg h]
    exact hZ k l

theorem allZero_gridFill (E : ℚ → ℚ) (A : Nat → Nat → ℚ) (dal : Int)
    (hA : ∀ i j, A i j = 0) (is : List Nat) :
    ∀ Z : NpMat ℚ, (∀ k l, Z.entry k l = 0) →
      ∀ k l, ((is.foldl (fun Zi i' => (List.range 8).foldl
        (fun Zj j' => blockFill E (A i' j') dal i' j' Zj) Zi) Z).entry k l) = 0 := by
  induction is with
  | nil =>
    intro Z hZ
    exact hZ
  | cons i' is ih =>
    intro Z hZ
    rw [List.foldl_cons]
    refine ih _ ?_
    have hrow : ∀ (js : List Nat) (Z : NpMat ℚ), (∀ k l, Z.entry k l = 0) →
        ∀ k l, ((js.foldl
          (fun Zj j' => blockFill E (A i' j') dal i' j' Zj) Z).entry k l) = 0 := by
      intro js
      induction js with
      | nil =>
        intro Z hZ
        exact hZ
      | cons j' js ihj =>
        intro Z hZ
        rw [List.foldl_cons]
        refine ihj _ ?_
        rw [hA i' j']
        exact allZero_blockFill E dal i' j' Z hZ
    exact hrow (List.range 8) Z hZ

/-- C7: for every positive d the Surface Synthesizer returns X, Y, Z grids of
shape (8d) x (8d), and an all-zero attack-count grid yields an all-zero Z. -/
theorem C7_shape_and_zero (E : ℚ → ℚ) (A : Nat → Nat → ℚ) (d : Int)
    (hd : 0 < d) :
    ∃ X Y Z, create_XYZ E A d = Except.ok (X, Y, Z) ∧
      X.rows = (8 * d).toNat ∧ X.cols = (8 * d).toNat ∧
      Y.rows = (8 * d).toNat ∧ Y.cols = (8 * d).toNat ∧
      Z.rows = (8 * d).toNat ∧ Z.cols = (8 * d).toNat ∧
      ((∀ i j, A i j = 0) → ∀ k l, Z.entry k l = 0) := by
  have hlen : (np_arange (d * 8)).length = (8 * d).toNat := by
    simp only [np_arange, List.length_map, List.length_range]
    omega
  have hdims := gridFill_dims E A d (List.range 8)
    ⟨(d * 8).toNat, (d * 8).toNat, fun _ _ => 0⟩
  refine ⟨_, _, _, create_XYZ_reduce E A d (by omega), ?_, ?_, ?_, ?_, ?_, ?_, ?_⟩
  · exact hlen
  · exact hlen
  · exact hlen
  · exact hlen
  · rw [hdims.1]
    show (d * 8).toNat = (8 * d).toNat
    omega
  · rw [hdims.2]
    show (d * 8).toNat = (8 * d).toNat
    omega
  · intro hA
    exact allZero_gridFill E A d hA (List.range 8) _ (fun _ _ => rfl)

/-- Witness for C7 at `d = 1` with the all-zero matrix. -/
theorem C7_shape_and_zero_witness :
    (0 : Int) < 1 ∧
    (∃ X Y Z, create_XYZ expId zeroMatrix 1 = Except.ok (X, Y, Z) ∧
      X.rows = (8 * (1 : Int)).toNat ∧ X.cols = (8 * (1 : Int)).toNat ∧
      Y.rows = (8 * (1 : Int)).toNat ∧ Y.cols = (8 * (1 : Int)).toNat ∧
      Z.rows = (8 * (1 : Int)).toNat ∧ Z.cols = (8 * (1 : Int)).toNat ∧
      ((∀ i j, zeroMatrix i j = 0) → ∀ k l, Z.entry k l = 0)) :=
  ⟨by decide, C7_shape_and_zero expId zeroMatrix 1 (by decide)⟩

/-- C4 counterexample: at `d = 0` the Surface Synthesizer does NOT signal an
invalid-argument error — it succeeds, returning (empty) grids: the Z
allocation sees dimension 0, which numpy accepts, and every block loop runs
zero iterations, so the division by the zero spread is never evaluated. -/
theorem C4_counterexample : (create_XYZ expId zeroMatrix 0).isOk = true := rfl

/-- C4 amended: a NEGATIVE resolution factor d makes `create_XYZ` signal the
invalid-argument error (numpy rejects the negative dimensions of Z) and no
grids are returned; but `d = 0` is NOT rejected — the call silently returns
empty 0x0 X, Y, Z grids. -/
theorem C4_amended (E : ℚ → ℚ) (A : Nat → Nat → ℚ) (d : Int) :
    (d < 0 → create_XYZ E A d =
      Except.error (PyErr.valueError "negative dimensions are not allowed")) ∧
    (d = 0 → ∃ X Y Z, create_XYZ E A d = Except.ok (X, Y, Z) ∧
      X.rows = 0 ∧ X.cols = 0 ∧ Y.rows = 0 ∧ Y.cols = 0 ∧
      Z.rows = 0 ∧ Z.cols = 0) := by
  constructor
  · intro hneg
    have hz : np_zeros (d * 8) (d * 8) =
        Except.error (PyErr.valueError "negative dimensions are not allowed") := by
      rw [np_zeros, if_pos (by omega)]
    simp only [create_XYZ, hz]
  · intro h0
    subst h0
    have hdims := gridFill_dims E A 0 (List.range 8)
      ⟨((0 : Int) * 8).toNat, ((0 : Int) * 8).toNat, fun _ _ => 0⟩
    refine ⟨_, _, _, create_XYZ_reduce E A 0 (by omega), rfl, rfl, rfl, rfl,
      ?_, ?_⟩
    · rw [hdims.1]
      rfl
    · rw [hdims.2]
      rfl

/-- Witness for C4 (amended) at `d = -1`. -/
theorem C4_amended_witness :
    ((-1 : Int) < 0) ∧
    create_XYZ expId zeroMatrix (-1) =
      Except.error (PyErr.valueError "negative dimensions are not allowed") :=
  ⟨by decide, (C4_amended expId zeroMatrix (-1)).1 (by decide)⟩

end ChessProj
